import Mathlib

/-!
Verification of the libelliptics-proxy core (`src/proxy.cpp`) against its
natural-language specification.

The development shallowly embeds the proxy's core routines:

* the quorum policy (`uploads_need`, `upload_is_good`),
* the group selector (`get_groups`),
* the replicated write engine (`write_impl`, with the chunked upload loop
  `chunkLoop` and the compensation / metadata postlude `write_finish`),
* the lookup group-elimination loop (`lookup_impl`),
* the range read (`range_get_impl`),
* the bulk engines (`bulk_read_impl`, `bulk_write_impl`).

The storage session is modelled as an oracle: each write-style call is handed
the currently targeted group list and yields the list of per-group success
entries (the session's default result filter only surfaces successful
replies).  The side effects of a call are recorded in a trace of `Event`s so
that compensation removals and the metadata finalize are observable.

Success modes are modelled as an inductive type.  The numeric enum constants
`SUCCESS_COPIES_TYPE__ANY/QUORUM/ALL` live in the repository header that is
not part of the sources at hand; per the spec they are distinct from every
integer replication target N ≥ 1, which is all the `switch` statements below
depend on.
-/

/-- Group ids are small integers (`std::vector<int>` in the source; named `GroupId` since `Group` is taken in Mathlib). -/
abbrev GroupId := Int

/-- Success mode of a write: the three named enum constants of
`SUCCESS_COPIES_TYPE` plus the "explicit number of copies" escape used by the
`default:` branches of the source's switches (any value that is none of the
named constants; per the spec an integer N ≥ 1). -/
inductive SuccessMode
  | any
  | quorum
  | all
  | n (k : Nat)
  deriving DecidableEq, Repr

/-- Embedding of `uploads_need` (src/proxy.cpp:46-57): required number of
successful uploads for a success mode and a replication count.  Note the
`default:` branch of the source returns `replication_count`, not the numeric
mode value. -/
def uploads_need (success_copies_num : SuccessMode) (replication_count : Nat) : Nat :=
  match success_copies_num with
  | .any => 1
  | .quorum => (replication_count >>> 1) + 1
  | .all => replication_count
  | .n _ => replication_count

/-- Embedding of `upload_is_good` (src/proxy.cpp:59-70): acceptance predicate
on the number `size` of successful replies. -/
def upload_is_good (success_copies_num : SuccessMode) (replication_count : Nat)
    (size : Nat) : Bool :=
  match success_copies_num with
  | .any => 1 ≤ size
  | .quorum => ((replication_count >>> 1) + 1) ≤ size
  | .all => size == replication_count
  | .n k => k ≤ size

/-- C2 counterexample: the claim says the required number of successes for
mode N is N itself; the code's `uploads_need` returns the replication count in
the `default:` branch.  At mode N = 1 with replication count R = 3 the code
requires 3 successes, not 1. -/
theorem uploads_need_mode_n_ne_claim :
    uploads_need (SuccessMode.n 1) 3 = 3 ∧ (3 : Nat) ≠ 1 := by
  constructor
  · rfl
  · decide

/-- C2 (amended): for every replication count R ≥ 1 and mode N ≥ 1, the
required number of successes is 1 for ANY, ⌊R/2⌋+1 for QUORUM, R for ALL and R
(not N) for mode N; the acceptance predicate on a success count s holds iff
s ≥ 1 for ANY, s ≥ ⌊R/2⌋+1 for QUORUM, s = R for ALL, and s ≥ N for mode N. -/
theorem quorum_policy_table (R N s : Nat) (hR : 1 ≤ R) (hN : 1 ≤ N) :
    (uploads_need .any R = 1 ∧
     uploads_need .quorum R = R / 2 + 1 ∧
     uploads_need .all R = R ∧
     uploads_need (.n N) R = R) ∧
    ((upload_is_good .any R s = true ↔ 1 ≤ s) ∧
     (upload_is_good .quorum R s = true ↔ R / 2 + 1 ≤ s) ∧
     (upload_is_good .all R s = true ↔ s = R) ∧
     (upload_is_good (.n N) R s = true ↔ N ≤ s)) := by
  refine ⟨⟨rfl, ?_, rfl, rfl⟩, ?_, ?_, ?_, ?_⟩
  · simp [uploads_need, Nat.shiftRight_one]
  · simp [upload_is_good]
  · simp [upload_is_good, Nat.shiftRight_one]
  · simp [upload_is_good]
  · simp [upload_is_good]

/-- C2 witness: the amended table evaluated at R = 5, N = 2, s = 3. -/
theorem quorum_policy_table_witness :
    (uploads_need .quorum 5 = 3 ∧ uploads_need (.n 2) 5 = 5) ∧
    upload_is_good .quorum 5 3 = true := by
  have h := quorum_policy_table 5 2 3 (by decide) (by decide)
  exact ⟨⟨h.1.2.1, h.1.2.2.2⟩, h.2.2.1.mpr (by decide)⟩

/-- Errors thrown by the proxy core (the source uses `std::runtime_error` /
elliptics exceptions; only the identity of the failure matters here). -/
inductive WriteErr
  | tooFewStates
  | noGroups
  | writeRejected
  | bulkWriteRejected
  | countMismatch
  | notFound
  | rangeFailed
  deriving DecidableEq, Repr

/-- Embedding of `elliptics_proxy_t::impl::get_groups` (src/proxy.cpp:1227-1251).
`shuffle` stands for `std::random_shuffle` applied to the part of the default
list after its first element; faithfulness only requires it to permute its
input (hypothesised where needed). -/
def get_groups (shuffle : List GroupId → List GroupId) (mgroups groups : List GroupId)
    (count : Nat) : Except WriteErr (List GroupId) :=
  let lgroups :=
    if groups.length ≠ 0 then groups
    else
      match mgroups with
      | [] => []
      | [g] => [g]
      | g :: t => g :: shuffle t
  let lgroups := if count ≠ 0 ∧ count < lgroups.length then lgroups.take count else lgroups
  if lgroups.length = 0 then .error .noGroups else .ok lgroups

/-- With a non-empty explicit group list and no count, the selector returns the
explicit list unchanged (used by the write/lookup/range paths below). -/
theorem get_groups_explicit (shuffle : List GroupId → List GroupId)
    (mgroups groups : List GroupId) (h : groups ≠ []) :
    get_groups shuffle mgroups groups 0 = .ok groups := by
  unfold get_groups
  have hlen : groups.length ≠ 0 := by
    simpa [List.length_eq_zero] using h
  simp [hlen]

/-- C6: with empty explicit groups, a duplicate-free default list and count
k > 0, the selector fails with `noGroups` exactly when the default list is
empty; otherwise it returns exactly `min k |default|` distinct groups drawn
from the default list, the head of the default list stays first, and the
remaining entries are a permutation of a sub-selection of the rest. -/
theorem get_groups_default_spec (shuffle : List GroupId → List GroupId)
    (hsh : ∀ l, (shuffle l).Perm l) (mgroups : List GroupId)
    (hnd : mgroups.Nodup) (k : Nat) (hk : 0 < k) :
    (mgroups = [] → get_groups shuffle mgroups [] k = .error .noGroups) ∧
    (∀ g t, mgroups = g :: t →
      ∃ r, get_groups shuffle mgroups [] k = .ok r ∧
        r.length = min k mgroups.length ∧
        r.Nodup ∧
        (∀ x ∈ r, x ∈ mgroups) ∧
        r.head? = some g ∧
        List.Subperm r.tail t) := by
  constructor
  · rintro rfl
    simp [get_groups]
  · rintro g t rfl
    -- the pre-truncation candidate list
    have hcand : ∃ s, (if ([] : List GroupId).length ≠ 0 then ([] : List GroupId) else
        match g :: t with
        | [] => []
        | [g] => [g]
        | g :: t => g :: shuffle t) = g :: s ∧ s.Perm t := by
      cases t with
      | nil => exact ⟨[], by simp, List.Perm.refl _⟩
      | cons a t' => exact ⟨shuffle (a :: t'), by simp, hsh _⟩
    obtain ⟨s, hs, hperm⟩ := hcand
    have hslen : s.length = t.length := hperm.length_eq
    have hnds : (g :: s).Nodup := by
      have : (g :: s).Perm (g :: t) := List.Perm.cons g hperm
      exact this.nodup_iff.mpr hnd
    by_cases htr : k < (g :: t).length
    · -- truncation applies
      have hklen : k < (g :: s).length := by
        simp only [List.length_cons, hslen]
        simpa using htr
      have hcond : k ≠ 0 ∧ k < (g :: s).length := ⟨Nat.pos_iff_ne_zero.mp hk, hklen⟩
      refine ⟨(g :: s).take k, ?_, ?_, ?_, ?_, ?_, ?_⟩
      · unfold get_groups
        simp only [hs]
        rw [if_pos hcond]
        have hlen : ((g :: s).take k).length = k := by
          simp only [List.length_take]
          omega
        rw [if_neg (by omega)]
      · have hlen : ((g :: s).take k).length = k := by
          simp only [List.length_take]
          omega
        rw [hlen, Nat.min_eq_left (Nat.le_of_lt htr)]
      · exact List.Nodup.sublist (List.take_sublist _ _) hnds
      · intro x hx
        have hx1 : x ∈ g :: s := List.mem_of_mem_take hx
        have hp : (g :: s).Perm (g :: t) := List.Perm.cons g hperm
        exact hp.mem_iff.mp hx1
      · obtain ⟨k', rfl⟩ : ∃ k', k = k' + 1 := ⟨k - 1, by omega⟩
        simp [List.take_succ_cons]
      · obtain ⟨k', rfl⟩ : ∃ k', k = k' + 1 := ⟨k - 1, by omega⟩
        rw [List.take_succ_cons]
        have h1 : List.Sublist (s.take k') s := List.take_sublist _ _
        exact List.Subperm.trans h1.subperm hperm.subperm
    · -- no truncation
      have hklen : ¬ (k ≠ 0 ∧ k < (g :: s).length) := by
        simp only [List.length_cons, hslen]
        simp only [List.length_cons] at htr
        omega
      refine ⟨g :: s, ?_, ?_, ?_, ?_, ?_, ?_⟩
      · unfold get_groups
        simp only [hs]
        rw [if_neg hklen]
        rw [if_neg (by simp)]
      · rw [Nat.min_eq_right (Nat.le_of_not_lt htr)]
        simp [hslen]
      · exact hnds
      · intro x hx
        have hp : (g :: s).Perm (g :: t) := List.Perm.cons g hperm
        exact hp.mem_iff.mp hx
      · rfl
      · exact hperm.subperm

/-- C6 witness: the selector applied to the default list [1,2,3] with count 2
(and the identity permutation as the shuffle). -/
theorem get_groups_default_spec_witness :
    ∃ r, get_groups id [1, 2, 3] [] 2 = .ok r ∧
      r.length = min 2 ([1, 2, 3] : List GroupId).length ∧
      r.Nodup ∧
      (∀ x ∈ r, x ∈ ([1, 2, 3] : List GroupId)) ∧
      r.head? = some 1 ∧
      List.Subperm r.tail [2, 3] :=
  (get_groups_default_spec id (fun l => List.Perm.refl l) [1, 2, 3]
    (by decide) 2 (by decide)).2 1 [2, 3] rfl

/-- Bit constants for the io flags tested by the core.  Modelled from the spec:
the numeric values live in the external elliptics packet header (not part of
this repository); the core only tests the four named bits, so only their
distinctness matters. -/
def DNET_IO_FLAGS_PREPARE : Nat := 16

/-- Modelled from the spec: see `DNET_IO_FLAGS_PREPARE`. -/
def DNET_IO_FLAGS_COMMIT : Nat := 32

/-- Modelled from the spec: see `DNET_IO_FLAGS_PREPARE`. -/
def DNET_IO_FLAGS_PLAIN_WRITE : Nat := 512

/-- Modelled from the spec: see `DNET_IO_FLAGS_PREPARE`. -/
def DNET_IO_FLAGS_NODATA : Nat := 1024

/-- Observable side effects of the write engine on the storage session.  Write
calls record the group list targeted by the session at call time, the bytes
handed to the call, the call's offset and (for prepare/commit) the reserved
total size.  `removeKey` is the best-effort compensation remove, `writeMetadata`
the metadata finalize together with the session cflags and the timestamp in
effect at the call. -/
inductive Event
  | writePrepare (gs : List GroupId) (body : List Nat) (off reserved : Nat)
  | writePlain (gs : List GroupId) (body : List Nat) (off : Nat)
  | writeCommit (gs : List GroupId) (body : List Nat) (off reserved : Nat)
  | writeData (gs : List GroupId) (body : List Nat) (off : Nat)
  | removeKey (gs : List GroupId)
  | writeMetadata (gs : List GroupId) (cflagsAt tsSec tsNsec : Nat)
  deriving DecidableEq, Repr

/-- The group list a session call is addressed to. -/
def Event.targets : Event → List GroupId
  | .writePrepare gs _ _ _ => gs
  | .writePlain gs _ _ => gs
  | .writeCommit gs _ _ _ => gs
  | .writeData gs _ _ => gs
  | .removeKey gs => gs
  | .writeMetadata gs _ _ _ => gs

/-- Body-upload calls (prepare / plain / commit / one-shot data), as opposed to
compensation removes and the metadata finalize. -/
def Event.isBody : Event → Bool
  | .writePrepare _ _ _ _ => true
  | .writePlain _ _ _ => true
  | .writeCommit _ _ _ _ => true
  | .writeData _ _ _ => true
  | _ => false

/-- Compensation removes. -/
def Event.isRemove : Event → Bool
  | .removeKey _ => true
  | _ => false

/-- Static configuration of the proxy (the `m_*` fields of
`elliptics_proxy_t::impl` used by the embedded routines) plus the session's
live-state count, which the environment provides. -/
structure Config where
  chunk_size : Nat
  replication_count : Nat
  success_copies_num : SuccessMode
  die_limit : Nat
  groups : List GroupId
  state_num : Nat

/-- Result of one run of the write engine: the session-effect trace, the
returned value (or error), the resolved target list `lgroups`, the final
surviving set `upload_groups`, whether the chunked path was taken, and the
session's cflags value when the call ends. -/
structure RunOut (α : Type) where
  trace : List Event
  result : Except WriteErr (List α)
  lgroups : List GroupId
  uploadGroups : List GroupId
  chunked : Bool
  finalCflags : Nat
  deriving Repr

/-- State threaded through the chunked-upload loop. -/
structure ChunkOut (α : Type) where
  events : List Event
  nextCall : Nat
  offsetEnd : Nat
  ug : List GroupId
  ret : List α

/-- Embedding of `std::set_difference` over the two sorted copies used by
`write_helper_t::get_incomplete_groups` (src/proxy.cpp:114-123). -/
def incomplete_groups (desired upload : List GroupId) : List GroupId :=
  (List.insertionSort (· ≤ ·) desired).diff (List.insertionSort (· ≤ ·) upload)

/-- Embedding of the `do { ... } while` chunk loop of
`elliptics_proxy_t::impl::write_impl` (src/proxy.cpp:660-674).  `oracle k gs`
is the list of per-group success entries the session returns for the k-th
write call when the session targets `gs`; `grp` extracts the group id of an
entry (`lookup_result_t::group`).  The loop advances `offset` by `chunk_size`
per iteration, issues the final slice as a commit and every intermediate slice
as a plain write, re-targets the surviving set before each call, and aborts as
soon as the acceptance predicate fails.  `fuel` is a structural bound on the
iteration count; every caller passes at least `content.length` which is ample
because the guard of the chunked path forces `chunk_size ≥ 1`. -/
def chunkLoop (oracle : Nat → List GroupId → List α) (grp : α → GroupId)
    (content : List Nat) (chunk : Nat) (scn : SuccessMode) (rc : Nat) :
    Nat → Nat → Nat → List GroupId → List α → ChunkOut α
  | 0, k, offset, ug, ret => ⟨[], k, offset, ug, ret⟩
  | fuel + 1, k, offset, ug, ret =>
    let S := content.length
    let o := offset + chunk
    if S ≤ o + chunk then
      -- last chunk: write_commit(key, content.slice(o, S - o), o, S)
      let reply := oracle k ug
      ⟨[.writeCommit ug ((content.drop o).take (S - o)) o S], k + 1, o, reply.map grp, reply⟩
    else
      -- intermediate chunk: write_plain(key, content.slice(o, chunk), o)
      let reply := oracle k ug
      let ug2 := reply.map grp
      if upload_is_good scn rc ug2.length then
        let r := chunkLoop oracle grp content chunk scn rc fuel (k + 1) o ug2 ret
        ⟨.writePlain ug ((content.drop o).take chunk) o :: r.events,
          r.nextCall, r.offsetEnd, r.ug, r.ret⟩
      else
        ⟨[.writePlain ug ((content.drop o).take chunk) o], k + 1, o, ug2, ret⟩

/-- Embedding of the body-upload dispatch of `write_impl`
(src/proxy.cpp:643-683): the three low-level flag paths, the chunked path
(initial `write_prepare` of the first slice reserving the total size, then
`chunkLoop`), and the one-shot `write_data` path.  Returns the events issued,
the surviving group set and the `ret` vector of `write_helper_t`. -/
def write_body (cfg : Config) (oracle : Nat → List GroupId → List α) (grp : α → GroupId)
    (content : List Nat) (offset wsize ioflags : Nat) (lgroups : List GroupId)
    (scn : SuccessMode) (rc : Nat) (chunked : Bool) :
    List Event × List GroupId × List α :=
  if ioflags &&& DNET_IO_FLAGS_PREPARE ≠ 0 then
    let reply := oracle 0 lgroups
    ([.writePrepare lgroups content offset wsize], reply.map grp, reply)
  else if ioflags &&& DNET_IO_FLAGS_COMMIT ≠ 0 then
    let reply := oracle 0 lgroups
    ([.writeCommit lgroups content offset wsize], reply.map grp, reply)
  else if ioflags &&& DNET_IO_FLAGS_PLAIN_WRITE ≠ 0 then
    let reply := oracle 0 lgroups
    ([.writePlain lgroups content offset], reply.map grp, reply)
  else if chunked then
    let body0 := (content.drop offset).take cfg.chunk_size
    let reply0 := oracle 0 lgroups
    let ug0 := reply0.map grp
    if upload_is_good scn rc ug0.length then
      let r := chunkLoop oracle grp content cfg.chunk_size scn rc
        (content.length + 1) 1 offset ug0 []
      (.writePrepare lgroups body0 offset content.length :: r.events, r.ug, r.ret)
    else
      ([.writePrepare lgroups body0 offset content.length], ug0, [])
  else
    let reply := oracle 0 lgroups
    ([.writeData lgroups content offset], reply.map grp, reply)

/-- Embedding of the postlude of `write_impl` (src/proxy.cpp:685-715): reject
and remove from the whole target list when the acceptance predicate fails;
otherwise remove from the incomplete groups when the upload was chunked and
some desired group dropped out, then finalize metadata against the surviving
set with cflags 0 and a zeroed timestamp — after which the source restores the
session's cflags from `ioflags` (src/proxy.cpp:715). -/
def write_finish (scn : SuccessMode) (rc : Nat) (lgroups : List GroupId)
    (chunked : Bool) (cflags ioflags : Nat) (events : List Event)
    (ug : List GroupId) (ret : List α) : RunOut α :=
  if upload_is_good scn rc ug.length then
    { trace := events ++
        (if chunked ∧ lgroups.length ≠ ug.length
          then [.removeKey (incomplete_groups lgroups ug)] else []) ++
        [.writeMetadata ug 0 0 0],
      result := .ok ret, lgroups := lgroups, uploadGroups := ug,
      chunked := chunked, finalCflags := ioflags }
  else
    { trace := events ++ [.removeKey lgroups], result := .error .writeRejected,
      lgroups := lgroups, uploadGroups := ug, chunked := chunked,
      finalCflags := cflags }

/-- Embedding of `elliptics_proxy_t::impl::write_impl` (src/proxy.cpp:586-731),
without the compile-gated metabase branch.  `content` is the packed payload
(`data_container_t::pack(data)`), `keyById` is `key.by_id()`, and
`scnArg = none` models passing `success_copies_num = 0` (which the source
replaces by the configured default). -/
def write_impl (cfg : Config) (shuffle : List GroupId → List GroupId)
    (oracle : Nat → List GroupId → List α) (grp : α → GroupId)
    (keyById : Bool) (content : List Nat) (offset wsize cflags ioflags : Nat)
    (groups : List GroupId) (scnArg : Option SuccessMode) : RunOut α :=
  if cfg.state_num < cfg.die_limit then
    ⟨[], .error .tooFewStates, [], [], false, cflags⟩
  else
    let rc := if groups.length = 0 then cfg.replication_count else groups.length
    let scn := scnArg.getD cfg.success_copies_num
    match get_groups shuffle cfg.groups groups 0 with
    | .error e => ⟨[], .error e, [], [], false, cflags⟩
    | .ok lg0 =>
      let lgroups := if rc ≠ 0 ∧ rc < lg0.length then lg0.take rc else lg0
      let chunked := cfg.chunk_size ≠ 0 ∧ cfg.chunk_size < content.length ∧
        keyById = false ∧
        ioflags &&& (DNET_IO_FLAGS_PREPARE ||| DNET_IO_FLAGS_COMMIT |||
          DNET_IO_FLAGS_PLAIN_WRITE) = 0
      let t := write_body cfg oracle grp content offset wsize ioflags lgroups scn rc
        (decide chunked)
      write_finish scn rc lgroups (decide chunked) cflags ioflags t.1 t.2.1 t.2.2

/-- C4 counterexample: one-shot write (chunk_size = 0), QUORUM, R = 3, groups
{1,2,3}, groups 1 and 2 succeed and group 3 fails.  The call does succeed with
2 lookup entries, but no compensation remove at all is issued — in particular
none against group 3 — because the incomplete-group repair of the source is
guarded by `chunked` (src/proxy.cpp:692). -/
theorem one_shot_no_incomplete_repair_cex :
    (write_impl (α := GroupId) ⟨0, 3, .quorum, 0, [], 1⟩ id (fun _ _ => [1, 2]) id
        false [0] 0 0 0 0 [1, 2, 3] none).result = .ok [1, 2] ∧
    (write_impl (α := GroupId) ⟨0, 3, .quorum, 0, [], 1⟩ id (fun _ _ => [1, 2]) id
        false [0] 0 0 0 0 [1, 2, 3] none).trace.filter Event.isRemove = [] := by
  constructor <;> rfl

/-- C4 (amended): a one-shot write (chunk_size = 0) with QUORUM, R = 3, target
groups {1,2,3} where groups 1 and 2 reply successfully and group 3 fails
succeeds returning the 2 lookup entries, issues no compensation remove (the
incomplete-group repair runs only on the chunked path), and finalizes metadata
against the surviving set {1,2}. -/
theorem one_shot_quorum_partial_success (α : Type)
    (oracle : Nat → List GroupId → List α) (grp : α → GroupId) (e1 e2 : α)
    (h1 : grp e1 = 1) (h2 : grp e2 = 2) (hor : oracle 0 [1, 2, 3] = [e1, e2])
    (content : List Nat) (offset wsize cflags ioflags : Nat) :
    (write_impl ⟨0, 3, .quorum, 0, [], 1⟩ id oracle grp false content offset wsize
        cflags ioflags [1, 2, 3] none).result = .ok [e1, e2] ∧
    (write_impl ⟨0, 3, .quorum, 0, [], 1⟩ id oracle grp false content offset wsize
        cflags ioflags [1, 2, 3] none).trace.filter Event.isRemove = [] ∧
    Event.writeMetadata [1, 2] 0 0 0 ∈
      (write_impl ⟨0, 3, .quorum, 0, [], 1⟩ id oracle grp false content offset wsize
        cflags ioflags [1, 2, 3] none).trace := by
  have hgg : get_groups id ([] : List GroupId) [1, 2, 3] 0 = .ok [1, 2, 3] :=
    get_groups_explicit id [] [1, 2, 3] (by decide)
  unfold write_impl
  rw [if_neg (by simp)]
  rw [hgg]
  simp only
  by_cases hp : ioflags &&& DNET_IO_FLAGS_PREPARE ≠ 0
  · simp [write_body, write_finish, hp, hor, h1, h2, upload_is_good,
      Event.isRemove]
  · by_cases hc : ioflags &&& DNET_IO_FLAGS_COMMIT ≠ 0
    · simp [write_body, write_finish, hp, hc, hor, h1, h2, upload_is_good,
        Event.isRemove]
    · by_cases hw : ioflags &&& DNET_IO_FLAGS_PLAIN_WRITE ≠ 0
      · simp [write_body, write_finish, hp, hc, hw, hor, h1, h2, upload_is_good,
          Event.isRemove]
      · simp [write_body, write_finish, hp, hc, hw, hor, h1, h2, upload_is_good,
          Event.isRemove]

/-- C4 witness: the amended statement at a concrete oracle (entries are the
group ids themselves). -/
theorem one_shot_quorum_partial_success_witness :
    (write_impl (α := GroupId) ⟨0, 3, .quorum, 0, [], 1⟩ id (fun _ _ => [1, 2]) id
        false [0] 0 0 0 0 [1, 2, 3] none).result = .ok [1, 2] ∧
    (write_impl (α := GroupId) ⟨0, 3, .quorum, 0, [], 1⟩ id (fun _ _ => [1, 2]) id
        false [0] 0 0 0 0 [1, 2, 3] none).trace.filter Event.isRemove = [] ∧
    Event.writeMetadata [1, 2] 0 0 0 ∈
      (write_impl (α := GroupId) ⟨0, 3, .quorum, 0, [], 1⟩ id (fun _ _ => [1, 2]) id
        false [0] 0 0 0 0 [1, 2, 3] none).trace :=
  one_shot_quorum_partial_success GroupId (fun _ _ => [1, 2]) id 1 2 rfl rfl rfl
    [0] 0 0 0 0

/-- C5 (code evaluated at the failing input): a one-shot write with caller
cflags = 5 and ioflags = 7 (no io-flag bits that alter the write path).  The
metadata finalize is issued against the surviving set with session cflags 0
and a zeroed timestamp, as claimed — but afterwards the session's cflags are
set to the *ioflags* value 7 (src/proxy.cpp:715), not restored to the
caller-supplied cflags 5. -/
theorem metadata_finalize_cflags_restore_bug :
    Event.writeMetadata [1, 2, 3] 0 0 0 ∈
      (write_impl (α := GroupId) ⟨0, 3, .quorum, 0, [], 1⟩ id (fun _ gs => gs) id
        false [0] 0 0 5 7 [1, 2, 3] none).trace ∧
    (write_impl (α := GroupId) ⟨0, 3, .quorum, 0, [], 1⟩ id (fun _ gs => gs) id
        false [0] 0 0 5 7 [1, 2, 3] none).finalCflags = 7 ∧
    (7 : Nat) ≠ 5 := by
  refine ⟨?_, rfl, by decide⟩
  decide

/-- The compensation postlude reports a successful write only when the
acceptance predicate holds on the surviving set. -/
theorem write_finish_ok_good (scn : SuccessMode) (rc : Nat) (lgroups : List GroupId)
    (chunked : Bool) (cflags ioflags : Nat) (events : List Event)
    (ug : List GroupId) (ret : List α) (l : List α)
    (h : (write_finish scn rc lgroups chunked cflags ioflags events ug ret).result = .ok l) :
    upload_is_good scn rc ug.length = true := by
  unfold write_finish at h
  by_cases hg : upload_is_good scn rc ug.length = true
  · exact hg
  · rw [if_neg hg] at h
    simp at h

/-- When the acceptance predicate fails, the postlude removes the key from the
whole target list and rejects the write. -/
theorem write_finish_reject (scn : SuccessMode) (rc : Nat) (lgroups : List GroupId)
    (chunked : Bool) (cflags ioflags : Nat) (events : List Event)
    (ug : List GroupId) (ret : List α)
    (h : upload_is_good scn rc ug.length = false) :
    (write_finish (α := α) scn rc lgroups chunked cflags ioflags events ug ret).result
        = .error .writeRejected ∧
    Event.removeKey lgroups ∈
      (write_finish (α := α) scn rc lgroups chunked cflags ioflags events ug ret).trace := by
  unfold write_finish
  rw [if_neg (by simp [h])]
  exact ⟨rfl, by simp⟩

/-- The surviving set reported by the postlude is its `ug` argument. -/
theorem write_finish_uploadGroups (scn : SuccessMode) (rc : Nat)
    (lgroups : List GroupId) (chunked : Bool) (cflags ioflags : Nat)
    (events : List Event) (ug : List GroupId) (ret : List α) :
    (write_finish scn rc lgroups chunked cflags ioflags events ug ret).uploadGroups = ug ∧
    (write_finish scn rc lgroups chunked cflags ioflags events ug ret).lgroups = lgroups := by
  unfold write_finish
  by_cases hg : upload_is_good scn rc ug.length = true
  · rw [if_pos hg]; exact ⟨rfl, rfl⟩
  · rw [if_neg hg]; exact ⟨rfl, rfl⟩

/-- The incomplete-group difference only contains desired groups. -/
theorem incomplete_groups_subset (desired upload : List GroupId) :
    ∀ x ∈ incomplete_groups desired upload, x ∈ desired := by
  intro x hx
  have h1 : x ∈ List.insertionSort (· ≤ ·) desired :=
    List.diff_subset _ _ hx
  exact (List.mem_insertionSort _).mp h1

/-- Session replies only mention targeted groups, so the chunk loop keeps the
surviving set inside the original target list and addresses every call to a
subset of it. -/
theorem chunkLoop_subset (oracle : Nat → List GroupId → List α) (grp : α → GroupId)
    (content : List Nat) (chunk : Nat) (scn : SuccessMode) (rc : Nat)
    (lg : List GroupId) (hor : ∀ k gs a, a ∈ oracle k gs → grp a ∈ gs) :
    ∀ fuel k offset ug ret, (∀ x ∈ ug, x ∈ lg) →
      (∀ ev ∈ (chunkLoop oracle grp content chunk scn rc fuel k offset ug ret).events,
        ∀ g ∈ ev.targets, g ∈ lg) ∧
      (∀ x ∈ (chunkLoop oracle grp content chunk scn rc fuel k offset ug ret).ug,
        x ∈ lg) := by
  intro fuel
  induction fuel with
  | zero =>
    intro k offset ug ret hug
    refine ⟨?_, hug⟩
    intro ev hev
    simp [chunkLoop] at hev
  | succ fuel ih =>
    intro k offset ug ret hug
    have hreply : ∀ x ∈ (oracle k ug).map grp, x ∈ lg := by
      intro x hx
      obtain ⟨a, ha, rfl⟩ := List.mem_map.mp hx
      exact hug _ (hor k ug a ha)
    unfold chunkLoop
    by_cases hlast : content.length ≤ offset + chunk + chunk
    · rw [if_pos hlast]
      refine ⟨?_, hreply⟩
      intro ev hev g hg
      simp only [List.mem_singleton] at hev
      subst hev
      exact hug g hg
    · rw [if_neg hlast]
      by_cases hgo : upload_is_good scn rc ((oracle k ug).map grp).length = true
      · rw [if_pos hgo]
        obtain ⟨ih1, ih2⟩ := ih (k + 1) (offset + chunk) ((oracle k ug).map grp) ret hreply
        refine ⟨?_, ih2⟩
        intro ev hev g hg
        simp only [List.mem_cons] at hev
        rcases hev with rfl | hev
        · exact hug g hg
        · exact ih1 ev hev g hg
      · rw [if_neg hgo]
        refine ⟨?_, hreply⟩
        intro ev hev g hg
        simp only [List.mem_singleton] at hev
        subst hev
        exact hug g hg

/-- The body-upload dispatch addresses every call to a subset of the target
list and reports a surviving set inside it. -/
theorem write_body_subset (cfg : Config) (oracle : Nat → List GroupId → List α)
    (grp : α → GroupId) (content : List Nat) (offset wsize ioflags : Nat)
    (lgroups : List GroupId) (scn : SuccessMode) (rc : Nat) (chunked : Bool)
    (hor : ∀ k gs a, a ∈ oracle k gs → grp a ∈ gs) :
    (∀ ev ∈ (write_body cfg oracle grp content offset wsize ioflags lgroups scn rc
        chunked).1, ∀ g ∈ ev.targets, g ∈ lgroups) ∧
    (∀ x ∈ (write_body cfg oracle grp content offset wsize ioflags lgroups scn rc
        chunked).2.1, x ∈ lgroups) := by
  have hreply : ∀ k, ∀ x ∈ (oracle k lgroups).map grp, x ∈ lgroups := by
    intro k x hx
    obtain ⟨a, ha, rfl⟩ := List.mem_map.mp hx
    exact hor k lgroups a ha
  unfold write_body
  by_cases hp : ioflags &&& DNET_IO_FLAGS_PREPARE ≠ 0
  · rw [if_pos hp]
    refine ⟨?_, hreply 0⟩
    intro ev hev g hg
    simp only [List.mem_singleton] at hev
    subst hev
    exact hg
  · rw [if_neg hp]
    by_cases hc : ioflags &&& DNET_IO_FLAGS_COMMIT ≠ 0
    · rw [if_pos hc]
      refine ⟨?_, hreply 0⟩
      intro ev hev g hg
      simp only [List.mem_singleton] at hev
      subst hev
      exact hg
    · rw [if_neg hc]
      by_cases hw : ioflags &&& DNET_IO_FLAGS_PLAIN_WRITE ≠ 0
      · rw [if_pos hw]
        refine ⟨?_, hreply 0⟩
        intro ev hev g hg
        simp only [List.mem_singleton] at hev
        subst hev
        exact hg
      · rw [if_neg hw]
        by_cases hch : chunked = true
        · subst hch
          rw [if_pos rfl]
          by_cases hgo : upload_is_good scn rc ((oracle 0 lgroups).map grp).length = true
          · rw [if_pos hgo]
            obtain ⟨h1, h2⟩ := chunkLoop_subset oracle grp content cfg.chunk_size scn rc
              lgroups hor (content.length + 1) 1 offset ((oracle 0 lgroups).map grp) []
              (hreply 0)
            refine ⟨?_, h2⟩
            intro ev hev g hg
            simp only [List.mem_cons] at hev
            rcases hev with rfl | hev
            · exact hg
            · exact h1 ev hev g hg
          · rw [if_neg hgo]
            refine ⟨?_, hreply 0⟩
            intro ev hev g hg
            simp only [List.mem_singleton] at hev
            subst hev
            exact hg
        · have hch' : chunked = false := by
            cases chunked
            · rfl
            · exact absurd rfl hch
          subst hch'
          rw [if_neg (by simp)]
          refine ⟨?_, hreply 0⟩
          intro ev hev g hg
          simp only [List.mem_singleton] at hev
          subst hev
          exact hg

/-- Every call recorded by the postlude is addressed within the target list,
provided the body calls were and the surviving set is contained in it. -/
theorem write_finish_targets (scn : SuccessMode) (rc : Nat) (lgroups : List GroupId)
    (chunked : Bool) (cflags ioflags : Nat) (events : List Event)
    (ug : List GroupId) (ret : List α)
    (hev : ∀ ev ∈ events, ∀ g ∈ ev.targets, g ∈ lgroups)
    (hug : ∀ x ∈ ug, x ∈ lgroups) :
    ∀ ev ∈ (write_finish scn rc lgroups chunked cflags ioflags events ug ret).trace,
      ∀ g ∈ ev.targets, g ∈ lgroups := by
  unfold write_finish
  by_cases hg : upload_is_good scn rc ug.length = true
  · rw [if_pos hg]
    intro ev hev' g hgin
    simp only [List.mem_append] at hev'
    rcases hev' with (hev' | hrm) | hmd
    · exact hev ev hev' g hgin
    · by_cases hinc : chunked ∧ lgroups.length ≠ ug.length
      · rw [if_pos hinc] at hrm
        simp only [List.mem_singleton] at hrm
        subst hrm
        exact incomplete_groups_subset lgroups ug g hgin
      · rw [if_neg hinc] at hrm
        simp at hrm
    · simp only [List.mem_singleton] at hmd
      subst hmd
      exact hug g hgin
  · rw [if_neg hg]
    intro ev hev' g hgin
    simp only [List.mem_append] at hev'
    rcases hev' with hev' | hrm
    · exact hev ev hev' g hgin
    · simp only [List.mem_singleton] at hrm
      subst hrm
      exact hgin

/-- C1: a write returns lookup results only if the surviving set satisfies the
acceptance predicate for the resolved (success mode, replication count);
whenever the acceptance predicate fails after the pre-checks, the key is
removed from the whole target list `lgroups` and the call fails with the
write-rejected error; and — since session replies only mention targeted
groups — every call (hence every group that accepted any chunk) stays within
`lgroups`, which therefore covers every group that must be cleaned up. -/
theorem write_acceptance_and_compensation (α : Type) (cfg : Config)
    (shuffle : List GroupId → List GroupId)
    (oracle : Nat → List GroupId → List α) (grp : α → GroupId)
    (keyById : Bool) (content : List Nat) (offset wsize cflags ioflags : Nat)
    (groups : List GroupId) (scnArg : Option SuccessMode)
    (out : RunOut α)
    (hout : out = write_impl cfg shuffle oracle grp keyById content offset wsize
      cflags ioflags groups scnArg) :
    (∀ l, out.result = .ok l →
      upload_is_good (scnArg.getD cfg.success_copies_num)
        (if groups.length = 0 then cfg.replication_count else groups.length)
        out.uploadGroups.length = true) ∧
    (cfg.die_limit ≤ cfg.state_num →
      ∀ lg0, get_groups shuffle cfg.groups groups 0 = .ok lg0 →
        upload_is_good (scnArg.getD cfg.success_copies_num)
          (if groups.length = 0 then cfg.replication_count else groups.length)
          out.uploadGroups.length = false →
        out.result = .error .writeRejected ∧ Event.removeKey out.lgroups ∈ out.trace) ∧
    ((∀ k gs a, a ∈ oracle k gs → grp a ∈ gs) →
      (∀ x ∈ out.uploadGroups, x ∈ out.lgroups) ∧
      (∀ ev ∈ out.trace, ∀ g ∈ ev.targets, g ∈ out.lgroups)) := by
  subst hout
  unfold write_impl
  by_cases hdie : cfg.state_num < cfg.die_limit
  · rw [if_pos hdie]
    refine ⟨?_, ?_, ?_⟩
    · intro l h
      simp at h
    · intro h
      omega
    · intro _
      refine ⟨?_, ?_⟩
      · intro x hx
        simp at hx
      · intro ev hev
        simp at hev
  · rw [if_neg hdie]
    cases hgg : get_groups shuffle cfg.groups groups 0 with
    | error e =>
      refine ⟨?_, ?_, ?_⟩
      · intro l h
        simp at h
      · intro _ lg0 hlg
        simp at hlg
      · intro _
        refine ⟨?_, ?_⟩
        · intro x hx
          simp at hx
        · intro ev hev
          simp at hev
    | ok lg0 =>
      simp only
      set rc := if groups.length = 0 then cfg.replication_count else groups.length
        with hrc
      set scn := scnArg.getD cfg.success_copies_num with hscn
      set lgroups := if rc ≠ 0 ∧ rc < lg0.length then List.take rc lg0 else lg0
        with hlgr
      set ch := decide (cfg.chunk_size ≠ 0 ∧ cfg.chunk_size < content.length ∧
        keyById = false ∧ ioflags &&& (DNET_IO_FLAGS_PREPARE |||
          DNET_IO_FLAGS_COMMIT ||| DNET_IO_FLAGS_PLAIN_WRITE) = 0) with hchd
      set t := write_body cfg oracle grp content offset wsize ioflags lgroups scn rc ch
        with ht
      refine ⟨?_, ?_, ?_⟩
      · intro l h
        rw [(write_finish_uploadGroups scn rc lgroups ch cflags ioflags t.1 t.2.1
          t.2.2).1]
        exact write_finish_ok_good scn rc lgroups ch cflags ioflags t.1 t.2.1 t.2.2 l h
      · intro _ lg0' hlg hbad
        rw [(write_finish_uploadGroups scn rc lgroups ch cflags ioflags t.1 t.2.1
          t.2.2).1] at hbad
        have hr := write_finish_reject (α := α) scn rc lgroups ch cflags ioflags
          t.1 t.2.1 t.2.2 hbad
        rw [(write_finish_uploadGroups scn rc lgroups ch cflags ioflags t.1 t.2.1
          t.2.2).2]
        exact hr
      · intro hor
        obtain ⟨hev, hug⟩ := write_body_subset cfg oracle grp content offset wsize
          ioflags lgroups scn rc ch hor
        rw [(write_finish_uploadGroups scn rc lgroups ch cflags ioflags t.1 t.2.1
          t.2.2).1,
          (write_finish_uploadGroups scn rc lgroups ch cflags ioflags t.1 t.2.1
          t.2.2).2]
        rw [← ht] at hev hug
        exact ⟨hug, write_finish_targets scn rc lgroups ch cflags ioflags t.1 t.2.1
          t.2.2 hev hug⟩

/-- C1 witness: QUORUM write over groups {1,2,3} where every group fails — the
call is rejected and the key is removed from the whole target list. -/
theorem write_acceptance_and_compensation_witness :
    (write_impl (α := GroupId) ⟨0, 3, .quorum, 0, [], 1⟩ id (fun _ _ => []) id
        false [0] 0 0 0 0 [1, 2, 3] none).result = .error .writeRejected ∧
    Event.removeKey [1, 2, 3] ∈
      (write_impl (α := GroupId) ⟨0, 3, .quorum, 0, [], 1⟩ id (fun _ _ => []) id
        false [0] 0 0 0 0 [1, 2, 3] none).trace := by
  have h := (write_acceptance_and_compensation GroupId ⟨0, 3, .quorum, 0, [], 1⟩ id
    (fun _ _ => []) id false [0] 0 0 0 0 [1, 2, 3] none _ rfl).2.1
  have h2 := h (by decide) [1, 2, 3]
    (get_groups_explicit id [] [1, 2, 3] (by decide)) (by decide)
  exact ⟨h2.1, h2.2⟩

/-- Number of body calls of a chunked upload: ⌈S / C⌉. -/
def nChunks (S C : Nat) : Nat := (S + C - 1) / C

/-- When C < S ≤ 2C a chunked upload needs exactly two body calls. -/
theorem nChunks_eq_two (C x : Nat) (hC : 0 < C) (h1 : C < x) (h2 : x ≤ 2 * C) :
    nChunks x C = 2 := by
  unfold nChunks
  exact Nat.div_eq_of_lt_le (by omega) (by omega)

/-- Peeling one chunk off the front. -/
theorem nChunks_step (C x : Nat) (hC : 0 < C) (h1 : C ≤ x) :
    nChunks x C = nChunks (x - C) C + 1 := by
  unfold nChunks
  have e1 : x + C - 1 = (x - 1) + C := by omega
  have e2 : x - C + C - 1 = x - 1 := by omega
  rw [e1, e2, Nat.add_div_right _ hC]

/-- A chunked upload of more than one chunk needs at least two body calls. -/
theorem nChunks_ge_two (C x : Nat) (hC : 0 < C) (h1 : C < x) : 2 ≤ nChunks x C := by
  unfold nChunks
  rw [Nat.le_div_iff_mul_le hC]
  omega

/-- The final commit chunk carries S mod C bytes (or C when C divides S). -/
theorem nChunks_last_len (C S : Nat) (hC : 0 < C) (hS : C < S) :
    S - (nChunks S C - 1) * C = if S % C = 0 then C else S % C := by
  have hdm : C * (S / C) + S % C = S := Nat.div_add_mod S C
  have hmod : S % C < C := Nat.mod_lt _ hC
  by_cases hr : S % C = 0
  · rw [if_pos hr]
    rw [hr, Nat.add_zero] at hdm
    have hq2 : 2 ≤ S / C := by
      by_contra hq
      push_neg at hq
      interval_cases h : S / C <;> omega
    have hn : nChunks S C = S / C := by
      unfold nChunks
      have e1 : S + C - 1 = (C - 1) + C * (S / C) := by omega
      rw [e1, Nat.add_mul_div_left _ _ hC, Nat.div_eq_of_lt (by omega), Nat.zero_add]
    rw [hn]
    have e2 : (S / C - 1) * C = C * (S / C) - C := by
      rw [Nat.sub_mul, Nat.mul_comm, Nat.one_mul]
    omega
  · rw [if_neg hr]
    have hn : nChunks S C = S / C + 1 := by
      unfold nChunks
      have e1 : S + C - 1 = (S % C - 1) + C * (S / C + 1) := by
        have : C * (S / C + 1) = C * (S / C) + C := by ring
        omega
      rw [e1, Nat.add_mul_div_left _ _ hC, Nat.div_eq_of_lt (by omega), Nat.zero_add]
    rw [hn]
    have e2 : (S / C + 1 - 1) * C = C * (S / C) := by
      rw [Nat.add_sub_cancel, Nat.mul_comm]
    omega

/-- Unfolding of one iteration of the chunk loop. -/
theorem chunkLoop_succ (oracle : Nat → List GroupId → List α) (grp : α → GroupId)
    (content : List Nat) (chunk : Nat) (scn : SuccessMode) (rc : Nat)
    (fuel k offset : Nat) (ug : List GroupId) (ret : List α) :
    chunkLoop oracle grp content chunk scn rc (fuel + 1) k offset ug ret =
      if content.length ≤ offset + chunk + chunk then
        ⟨[.writeCommit ug ((content.drop (offset + chunk)).take
            (content.length - (offset + chunk))) (offset + chunk) content.length],
          k + 1, offset + chunk, ((oracle k ug).map grp), oracle k ug⟩
      else if upload_is_good scn rc ((oracle k ug).map grp).length then
        let r := chunkLoop oracle grp content chunk scn rc fuel (k + 1)
          (offset + chunk) ((oracle k ug).map grp) ret
        ⟨.writePlain ug ((content.drop (offset + chunk)).take chunk)
            (offset + chunk) :: r.events, r.nextCall, r.offsetEnd, r.ug, r.ret⟩
      else
        ⟨[.writePlain ug ((content.drop (offset + chunk)).take chunk)
            (offset + chunk)], k + 1, offset + chunk, ((oracle k ug).map grp), ret⟩ :=
  rfl

/-- The chunk loop when every call succeeds in every targeted group and the
acceptance predicate holds on the full target list: starting before offset
`off`, the loop issues n − 2 plain writes of stride C followed by one commit
of the remaining bytes (n = ⌈(S − off) / C⌉), the surviving set never shrinks
and the returned vector is the commit call's reply. -/
theorem chunkLoop_healthy (oracle : Nat → List GroupId → List α) (grp : α → GroupId)
    (content : List Nat) (C : Nat) (scn : SuccessMode) (rc : Nat)
    (gs : List GroupId) (hC : 0 < C)
    (hh : ∀ k, (oracle k gs).map grp = gs)
    (hg : upload_is_good scn rc gs.length = true) :
    ∀ fuel off k ret0, content.length - off ≤ fuel →
      off + C < content.length →
      chunkLoop oracle grp content C scn rc fuel k off gs ret0 =
        ⟨(List.range (nChunks (content.length - off) C - 2)).map
            (fun i => Event.writePlain gs
              ((content.drop (off + (i + 1) * C)).take C) (off + (i + 1) * C)) ++
          [Event.writeCommit gs
            ((content.drop (off + (nChunks (content.length - off) C - 1) * C)).take
              (content.length - (off + (nChunks (content.length - off) C - 1) * C)))
            (off + (nChunks (content.length - off) C - 1) * C) content.length],
          k + (nChunks (content.length - off) C - 1),
          off + (nChunks (content.length - off) C - 1) * C,
          gs,
          oracle (k + (nChunks (content.length - off) C - 2)) gs⟩ := by
  intro fuel
  induction fuel with
  | zero =>
    intro off k ret0 hfuel hoff
    omega
  | succ fuel ih =>
    intro off k ret0 hfuel hoff
    by_cases hlast : content.length ≤ off + C + C
    · have hn : nChunks (content.length - off) C = 2 :=
        nChunks_eq_two C (content.length - off) hC (by omega) (by omega)
      rw [chunkLoop_succ, if_pos hlast, hn, hh k]
      norm_num
    · have hn' : nChunks (content.length - (off + C)) C =
          nChunks (content.length - off) C - 1 := by
        have hstep := nChunks_step C (content.length - off) hC (by omega)
        have e : content.length - off - C = content.length - (off + C) := by omega
        rw [e] at hstep
        omega
      have hge : 2 ≤ nChunks (content.length - (off + C)) C :=
        nChunks_ge_two C _ hC (by omega)
      obtain ⟨m, hm⟩ : ∃ m, nChunks (content.length - (off + C)) C = m + 2 :=
        ⟨nChunks (content.length - (off + C)) C - 2, by omega⟩
      have hnval : nChunks (content.length - off) C = m + 3 := by omega
      rw [chunkLoop_succ, if_neg hlast, hh k, if_pos hg]
      rw [ih (off + C) (k + 1) ret0 (by omega) (by omega)]
      simp only [hm, hnval]
      have h32 : m + 3 - 2 = m + 1 := by omega
      have h31 : m + 3 - 1 = m + 2 := by omega
      have h21 : m + 2 - 1 = m + 1 := by omega
      have h22 : m + 2 - 2 = m := by omega
      simp only [h32, h31, h21, h22]
      simp only [ChunkOut.mk.injEq]
      refine ⟨?_, by omega, by ring, trivial, ?_⟩
      · rw [List.range_succ_eq_map]
        simp only [List.map_cons, List.map_map, List.cons_append]
        refine congrArg₂ _ ?_ ?_
        · norm_num
        · refine congrArg₂ _ ?_ ?_
          · refine List.map_congr_left ?_
            intro i _
            simp only [Function.comp_apply, Nat.succ_eq_add_one]
            have e : off + (i + 1 + 1) * C = off + C + (i + 1) * C := by ring
            rw [e]
          · have e : off + (m + 2) * C = off + C + (m + 1) * C := by ring
            rw [e]
      · have e : k + 1 + m = k + (m + 1) := by omega
        rw [e]

/-- Left operand of a zero bitwise or is zero. -/
theorem lor_eq_zero_left (a b : Nat) (h : a ||| b = 0) : a = 0 := by
  apply Nat.eq_of_testBit_eq
  intro i
  have hb := congrArg (fun t => Nat.testBit t i) h
  simp only [Nat.testBit_lor] at hb
  simp only [Nat.zero_testBit] at hb ⊢
  exact (Bool.or_eq_false_iff.mp hb).1

/-- Right operand of a zero bitwise or is zero. -/
theorem lor_eq_zero_right (a b : Nat) (h : a ||| b = 0) : b = 0 := by
  rw [Nat.lor_comm] at h
  exact lor_eq_zero_left b a h

/-- If the combined PREPARE/COMMIT/PLAIN_WRITE test of the chunked-path guard
is clear, each of the three individual dispatch tests is clear. -/
theorem io_flags_clear (ioflags : Nat)
    (h : ioflags &&& (DNET_IO_FLAGS_PREPARE ||| DNET_IO_FLAGS_COMMIT |||
      DNET_IO_FLAGS_PLAIN_WRITE) = 0) :
    ioflags &&& DNET_IO_FLAGS_PREPARE = 0 ∧
    ioflags &&& DNET_IO_FLAGS_COMMIT = 0 ∧
    ioflags &&& DNET_IO_FLAGS_PLAIN_WRITE = 0 := by
  rw [Nat.and_or_distrib_left, Nat.and_or_distrib_left] at h
  exact ⟨lor_eq_zero_left _ _ (lor_eq_zero_left _ _ h),
    lor_eq_zero_right _ _ (lor_eq_zero_left _ _ h), lor_eq_zero_right _ _ h⟩

/-- C3: a chunked write (chunk size C > 0, packed payload of S > C bytes,
name-based key, none of PREPARE/COMMIT/PLAIN_WRITE set, offset 0) in which
every chunk succeeds in every targeted group issues exactly ⌈S/C⌉ body calls:
one prepare carrying bytes [0, C) with reserved size S, then ⌈S/C⌉ − 2 plain
writes each carrying the next C bytes, then one final commit carrying the
remaining S mod C (or C) bytes; the returned lookup vector is the reply of the
final commit call. -/
theorem chunked_write_call_sequence (α : Type) (cfg : Config)
    (shuffle : List GroupId → List GroupId)
    (oracle : Nat → List GroupId → List α) (grp : α → GroupId)
    (content : List Nat) (wsize cflags ioflags : Nat)
    (groups : List GroupId) (scn : SuccessMode)
    (hC : 0 < cfg.chunk_size) (hS : cfg.chunk_size < content.length)
    (hdie : cfg.die_limit ≤ cfg.state_num) (hgne : groups ≠ [])
    (hfl : ioflags &&& (DNET_IO_FLAGS_PREPARE ||| DNET_IO_FLAGS_COMMIT |||
      DNET_IO_FLAGS_PLAIN_WRITE) = 0)
    (hh : ∀ k, (oracle k groups).map grp = groups)
    (hg : upload_is_good scn groups.length groups.length = true)
    (out : RunOut α)
    (hout : out = write_impl cfg shuffle oracle grp false content 0 wsize cflags
      ioflags groups (some scn)) :
    out.trace =
      Event.writePrepare groups (content.take cfg.chunk_size) 0 content.length ::
        ((List.range (nChunks content.length cfg.chunk_size - 2)).map
          (fun i => Event.writePlain groups
            ((content.drop ((i + 1) * cfg.chunk_size)).take cfg.chunk_size)
            ((i + 1) * cfg.chunk_size)) ++
        [Event.writeCommit groups
          ((content.drop ((nChunks content.length cfg.chunk_size - 1) *
              cfg.chunk_size)).take
            (content.length - (nChunks content.length cfg.chunk_size - 1) *
              cfg.chunk_size))
          ((nChunks content.length cfg.chunk_size - 1) * cfg.chunk_size)
          content.length] ++
        [Event.writeMetadata groups 0 0 0]) ∧
    (out.trace.filter Event.isBody).length = nChunks content.length cfg.chunk_size ∧
    out.result = .ok (oracle (nChunks content.length cfg.chunk_size - 1) groups) ∧
    content.length - (nChunks content.length cfg.chunk_size - 1) * cfg.chunk_size =
      (if content.length % cfg.chunk_size = 0 then cfg.chunk_size
        else content.length % cfg.chunk_size) := by
  subst hout
  obtain ⟨hp, hcm, hw⟩ := io_flags_clear ioflags hfl
  have hgl0 : ¬ (groups.length = 0) := by
    simpa [List.length_eq_zero] using hgne
  have hm2 : 2 ≤ nChunks content.length cfg.chunk_size :=
    nChunks_ge_two cfg.chunk_size content.length hC hS
  have hloop := chunkLoop_healthy oracle grp content cfg.chunk_size scn groups.length
    groups hC hh hg (content.length + 1) 0 1 [] (by omega) (by omega)
  have htrunk : write_impl cfg shuffle oracle grp false content 0 wsize cflags
      ioflags groups (some scn) =
      write_finish scn groups.length groups true cflags ioflags
        (Event.writePrepare groups ((content.drop 0).take cfg.chunk_size) 0
            content.length ::
          (chunkLoop oracle grp content cfg.chunk_size scn groups.length
            (content.length + 1) 1 0 groups []).events)
        (chunkLoop oracle grp content cfg.chunk_size scn groups.length
          (content.length + 1) 1 0 groups []).ug
        (chunkLoop oracle grp content cfg.chunk_size scn groups.length
          (content.length + 1) 1 0 groups []).ret := by
    unfold write_impl
    rw [if_neg (by omega), get_groups_explicit shuffle cfg.groups groups hgne]
    simp only [if_neg hgl0, Option.getD_some]
    rw [if_neg (by omega : ¬ (groups.length ≠ 0 ∧ groups.length < groups.length))]
    have hchd : decide (cfg.chunk_size ≠ 0 ∧ cfg.chunk_size < content.length ∧
        True ∧ ioflags &&& (DNET_IO_FLAGS_PREPARE |||
          DNET_IO_FLAGS_COMMIT ||| DNET_IO_FLAGS_PLAIN_WRITE) = 0) = true :=
      decide_eq_true ⟨by omega, hS, trivial, hfl⟩
    rw [hchd]
    unfold write_body
    rw [if_neg (by omega : ¬ ioflags &&& DNET_IO_FLAGS_PREPARE ≠ 0),
      if_neg (by omega : ¬ ioflags &&& DNET_IO_FLAGS_COMMIT ≠ 0),
      if_neg (by omega : ¬ ioflags &&& DNET_IO_FLAGS_PLAIN_WRITE ≠ 0),
      if_pos rfl]
    simp only [hh 0]
    rw [if_pos hg]
  rw [htrunk, hloop]
  have hug := hh (1 + (nChunks (content.length - 0) cfg.chunk_size - 2))
  unfold write_finish
  rw [if_pos (by simpa using hg)]
  simp only [Nat.sub_zero] at *
  rw [if_neg (by simp : ¬ (True ∧ groups.length ≠ groups.length))]
  have hfp : ∀ (l : List Nat) (f : Nat → Event), (∀ i, (f i).isBody = true) →
      List.filter Event.isBody (l.map f) = l.map f := by
    intro l f hf
    rw [List.filter_eq_self.mpr]
    intro a ha
    obtain ⟨i, _, rfl⟩ := List.mem_map.mp ha
    exact hf i
  refine ⟨?_, ?_, ?_, nChunks_last_len cfg.chunk_size content.length hC hS⟩
  · simp only [List.nil_append, List.append_nil, List.cons_append, List.append_assoc,
      Nat.zero_add, List.drop_zero]
  · simp only [List.nil_append, List.append_nil, List.cons_append, List.append_assoc,
      Nat.zero_add, List.drop_zero]
    rw [List.filter_cons_of_pos (by rfl)]
    rw [List.filter_append]
    rw [hfp (List.range (nChunks content.length cfg.chunk_size - 2))
      (fun i => Event.writePlain groups
        ((content.drop ((i + 1) * cfg.chunk_size)).take cfg.chunk_size)
        ((i + 1) * cfg.chunk_size)) (fun i => rfl)]
    rw [List.filter_cons_of_pos (by rfl), List.filter_cons_of_neg (by simp [Event.isBody])]
    simp only [List.filter_nil, List.length_cons, List.length_append,
      List.length_map, List.length_range, List.length_nil]
    omega
  · have e : 1 + (nChunks content.length cfg.chunk_size - 2) =
        nChunks content.length cfg.chunk_size - 1 := by omega
    rw [e]

/-- C3 witness: chunk size 2, 5-byte payload, QUORUM over groups {1,2,3}, all
healthy — 3 body calls and the commit reply returned. -/
theorem chunked_write_call_sequence_witness :
    (write_impl (α := GroupId) ⟨2, 0, .quorum, 0, [], 1⟩ id (fun _ gs => gs) id
        false [9, 8, 7, 6, 5] 0 0 0 0 [1, 2, 3] (some .quorum)).result =
      .ok [1, 2, 3] ∧
    ((write_impl (α := GroupId) ⟨2, 0, .quorum, 0, [], 1⟩ id (fun _ gs => gs) id
        false [9, 8, 7, 6, 5] 0 0 0 0 [1, 2, 3] (some .quorum)).trace.filter
          Event.isBody).length = 3 := by
  have h := chunked_write_call_sequence GroupId ⟨2, 0, .quorum, 0, [], 1⟩ id
    (fun _ gs => gs) id [9, 8, 7, 6, 5] 0 0 0 [1, 2, 3] .quorum
    (by decide) (by decide) (by decide) (by decide) (by decide)
    (fun k => List.map_id _) (by decide) _ rfl
  exact ⟨h.2.2.1, h.2.1⟩

/-- One entry of a sync lookup result: the replying group
(`entry.command()->id.group_id`) and whether the entry carries an error
(`lookup_result_entry::error`).  The parsed payload of a successful entry is
not modelled; returning the entry itself stands for `parse_lookup(entry)`. -/
structure LEntry where
  group : GroupId
  isError : Bool
  deriving DecidableEq, Repr

/-- Embedding of the entry loop inside `lookup_impl`'s while loop
(src/proxy.cpp:558-568): return the first entry without an error; every
processed error entry drops its group id from the candidate list
(`std::remove` removes all occurrences). -/
def lookup_iter : List LEntry → List GroupId → Option LEntry × List GroupId
  | [], lgroups => (none, lgroups)
  | e :: es, lgroups =>
    if e.isError = false then (some e, lgroups)
    else lookup_iter es (lgroups.filter (fun g => !(g == e.group)))

/-- Embedding of the `while (!lgroups.empty())` loop of `lookup_impl`
(src/proxy.cpp:554-570).  `oracle n lg` is the session's reply in round `n`
when the session targets `lg`.  `fuel` bounds the number of rounds (the C++
loop has no such bound; `none` marks exhaustion and is shown unreachable for
the session model used in the theorem below). -/
def lookup_loop (oracle : Nat → List GroupId → List LEntry) :
    Nat → Nat → List GroupId → Option (Except WriteErr LEntry)
  | 0, _, _ => none
  | fuel + 1, n, lgroups =>
    if lgroups.isEmpty then some (.error .notFound)
    else
      match lookup_iter (oracle n lgroups) lgroups with
      | (some e, _) => some (.ok e)
      | (none, lg2) => lookup_loop oracle fuel (n + 1) lg2

/-- Embedding of `elliptics_proxy_t::impl::lookup_impl` (src/proxy.cpp:545-577):
select the candidate groups, then run the group-elimination loop. -/
def lookup_impl (cfg : Config) (shuffle : List GroupId → List GroupId)
    (oracle : Nat → List GroupId → List LEntry) (groups : List GroupId) :
    Option (Except WriteErr LEntry) :=
  match get_groups shuffle cfg.groups groups 0 with
  | .error e => some (.error e)
  | .ok lgroups => lookup_loop oracle (lgroups.length + 1) 0 lgroups

/-- The entry loop returns the first entry without an error. -/
theorem lookup_iter_fst (entries : List LEntry) :
    ∀ lg, (lookup_iter entries lg).1 = entries.find? (fun e => !e.isError) := by
  induction entries with
  | nil =>
    intro lg
    rfl
  | cons e es ih =>
    intro lg
    by_cases he : e.isError = false
    · rw [lookup_iter, if_pos he, List.find?_cons_of_pos _ (by simp [he])]
    · rw [lookup_iter, if_neg he, List.find?_cons_of_neg _ (by simpa using he)]
      exact ih _

/-- When every entry is an error, the entry loop removes exactly the groups
mentioned by the reply from the candidate list. -/
theorem lookup_iter_all_error (entries : List LEntry) :
    ∀ lg, (∀ e ∈ entries, e.isError = true) →
      lookup_iter entries lg =
        (none, lg.filter (fun g => !(entries.any (fun e2 => e2.group == g)))) := by
  induction entries with
  | nil =>
    intro lg _
    simp [lookup_iter]
  | cons e es ih =>
    intro lg h
    have he : e.isError = true := h e (by simp)
    rw [lookup_iter, if_neg (by simp [he])]
    rw [ih _ (fun e2 he2 => h e2 (by simp [he2]))]
    rw [List.filter_filter]
    refine congrArg _ (List.filter_congr ?_)
    intro g _
    simp only [List.any_cons, Bool.not_or, Bool.and_comm]
    have hbeq : (g == e.group) = (e.group == g) := by
      by_cases hgg : g = e.group
      · simp [hgg]
      · simp [hgg, Ne.symm hgg]
    rw [hbeq]

/-- Unfolding of one round of the lookup loop. -/
theorem lookup_loop_succ (oracle : Nat → List GroupId → List LEntry)
    (fuel n : Nat) (lgroups : List GroupId) :
    lookup_loop oracle (fuel + 1) n lgroups =
      (if lgroups.isEmpty then some (.error .notFound)
      else match lookup_iter (oracle n lgroups) lgroups with
        | (some e, _) => some (.ok e)
        | (none, lg2) => lookup_loop oracle fuel (n + 1) lg2) :=
  rfl

/-- C8: for a lookup whose session yields, in each round, one entry per
currently-targeted group (`filters::all`), the candidate list is iterated in
rounds; the first entry without an error is parsed and returned; every error
entry removes its group id from the candidate list (first conjunct, for every
reply); and when every group errors the candidate list empties, after which
the lookup fails with the not-found error. -/
theorem lookup_group_elimination (cfg : Config)
    (shuffle : List GroupId → List GroupId) (err : GroupId → Bool)
    (groups : List GroupId) (hg : groups ≠ []) :
    (∀ entries lg, (∀ e ∈ entries, e.isError = true) →
      lookup_iter entries lg =
        (none, lg.filter (fun g => !(entries.any (fun e2 => e2.group == g))))) ∧
    lookup_impl cfg shuffle (fun _ lg => lg.map (fun g => ⟨g, err g⟩)) groups =
      some (match groups.find? (fun g => !(err g)) with
            | some g => .ok ⟨g, false⟩
            | none => .error .notFound) := by
  refine ⟨fun entries lg h => lookup_iter_all_error entries lg h, ?_⟩
  unfold lookup_impl
  rw [get_groups_explicit shuffle cfg.groups groups hg]
  obtain ⟨g0, gs, rfl⟩ : ∃ g0 gs, groups = g0 :: gs := by
    cases groups with
    | nil => exact absurd rfl hg
    | cons a l => exact ⟨a, l, rfl⟩
  simp only
  have hlen : (g0 :: gs).length + 1 = gs.length + 1 + 1 := by simp
  rw [hlen, lookup_loop_succ]
  rw [if_neg (by simp)]
  have hfst := lookup_iter_fst
    ((g0 :: gs).map (fun g => (⟨g, err g⟩ : LEntry))) (g0 :: gs)
  rw [List.find?_map] at hfst
  have hcomp : ((fun e => !e.isError) ∘ (fun g => (⟨g, err g⟩ : LEntry))) =
      (fun g => !(err g)) := rfl
  rw [hcomp] at hfst
  cases hiter : lookup_iter ((g0 :: gs).map (fun g => (⟨g, err g⟩ : LEntry)))
      (g0 :: gs) with
  | mk fst snd =>
    rw [hiter] at hfst
    simp only at hfst
    cases hfind : (g0 :: gs).find? (fun g => !(err g)) with
    | some a =>
      rw [hfind] at hfst
      simp only [Option.map_some'] at hfst
      have ha : err a = false := by
        have := List.find?_some hfind
        simpa using this
      subst hfst
      simp only [ha]
    | none =>
      rw [hfind] at hfst
      simp only [Option.map_none'] at hfst
      subst hfst
      have hallerr : ∀ e ∈ (g0 :: gs).map (fun g => (⟨g, err g⟩ : LEntry)),
          e.isError = true := by
        intro e he
        obtain ⟨g, hgmem, rfl⟩ := List.mem_map.mp he
        have := List.find?_eq_none.mp hfind g hgmem
        simpa using this
      have hempty : snd = [] := by
        have h2 := lookup_iter_all_error
          ((g0 :: gs).map (fun g => (⟨g, err g⟩ : LEntry))) (g0 :: gs) hallerr
        rw [hiter] at h2
        have hsnd := congrArg Prod.snd h2
        simp only at hsnd
        rw [hsnd]
        rw [List.filter_eq_nil_iff]
        intro g hgmem
        have hany : ((g0 :: gs).map (fun g => (⟨g, err g⟩ : LEntry))).any
            (fun e2 => e2.group == g) = true := by
          rw [List.any_eq_true]
          exact ⟨⟨g, err g⟩, List.mem_map.mpr ⟨g, hgmem, rfl⟩, by simp⟩
        simp [hany]
        intro hne
        rcases List.mem_cons.mp hgmem with h | h
        · exact absurd h.symm hne
        · exact h
      simp only
      rw [hempty, lookup_loop_succ]
      simp

/-- C8 witness: groups [1, 2] where group 1 errors and group 2 replies — the
lookup returns group 2's entry. -/
theorem lookup_group_elimination_witness :
    lookup_impl ⟨0, 3, .quorum, 0, [], 1⟩ id
      (fun _ lg => lg.map (fun g => ⟨g, decide (g = 1)⟩)) [1, 2] =
      some (.ok ⟨2, false⟩) := by
  have h := (lookup_group_elimination ⟨0, 3, .quorum, 0, [], 1⟩ id
    (fun g => decide (g = 1)) [1, 2] (by decide)).2
  exact h

/-- One entry of a `read_data_range` reply: the data body
(`entry.data().to_string()`) and the counter field
(`entry.io_attribute()->num`). -/
structure RangeEntry where
  data : String
  num : Nat
  deriving DecidableEq, Repr

/-- Embedding of the per-group entry loop of `range_get_impl`
(src/proxy.cpp:771-783): accumulate `io_attribute()->num` when NODATA is
clear, push the data bodies when NODATA is set; afterwards, when NODATA is
set, append the textual counter. -/
def range_group_scan (nodata : Bool) (entries : List RangeEntry) : List String :=
  let acc := entries.foldl
    (fun (acc : Nat × List String) e =>
      if !nodata then (acc.1 + e.num, acc.2) else (acc.1, acc.2 ++ [e.data]))
    (0, [])
  if nodata then acc.2 ++ [Nat.repr acc.1] else acc.2

/-- Embedding of the candidate-group loop of `range_get_impl`
(src/proxy.cpp:765-789): a per-group exception (`oracle g = none`) continues
with the next group; the loop breaks as soon as `ret` is non-empty. -/
def range_get_loop (oracle : GroupId → Option (List RangeEntry)) (nodata : Bool) :
    List GroupId → List String
  | [] => []
  | g :: rest =>
    match oracle g with
    | none => range_get_loop oracle nodata rest
    | some entries =>
      let ret := range_group_scan nodata entries
      if ret.length ≠ 0 then ret else range_get_loop oracle nodata rest

/-- Embedding of `elliptics_proxy_t::impl::range_get_impl`
(src/proxy.cpp:733-813): select the candidate groups, run the group loop and
fail when nothing was collected. -/
def range_get_impl (cfg : Config) (shuffle : List GroupId → List GroupId)
    (oracle : GroupId → Option (List RangeEntry)) (ioflags : Nat)
    (groups : List GroupId) : Except WriteErr (List String) :=
  match get_groups shuffle cfg.groups groups 0 with
  | .error e => .error e
  | .ok lgroups =>
    let ret := range_get_loop oracle
      (decide (ioflags &&& DNET_IO_FLAGS_NODATA ≠ 0)) lgroups
    if ret.length = 0 then .error .rangeFailed else .ok ret

/-- C7 (code evaluated at the failing input): the NODATA branches of the
entry loop are swapped in the source (src/proxy.cpp:773-776).  With NODATA
clear and a candidate group returning one entry with body "abc", the claim
says the call returns the body ["abc"]; the code pushes nothing (it only
accumulates counters it never returns) and fails with the READ_RANGE error.
With NODATA set and the same reply, the claim says the call returns the
single-element textual count ["1"]; the code returns the body plus a textual
"0" (the counter is only accumulated in the other branch). -/
theorem range_get_nodata_swapped :
    range_get_impl ⟨0, 3, .quorum, 0, [], 1⟩ id
      (fun g => if g = 1 then some [⟨"abc", 1⟩] else none) 0 [1] =
      .error .rangeFailed ∧
    range_get_impl ⟨0, 3, .quorum, 0, [], 1⟩ id
      (fun g => if g = 1 then some [⟨"abc", 1⟩] else none) 1024 [1] =
      .ok ["abc", "0"] := by
  constructor <;> rfl

/-- Session-level calls of the bulk engines.  Keys are modelled by their
transformed raw ids (the name-to-id transform is a session operation applied
to each key before the call; it is modelled as the identity on ids). -/
inductive BulkEvent
  | bulkRead (gs : List GroupId) (ids : List Nat)
  | bulkWrite (gs : List GroupId) (ids : List Nat)
  | removeKey (gs : List GroupId) (id : Nat)
  deriving DecidableEq, Repr

/-- Embedding of `elliptics_proxy_t::impl::bulk_read_impl`
(src/proxy.cpp:820-878).  `oracle lg ids` is the session's bulk-read reply:
per-id payloads for the ids it found (ids missing from the reply are simply
absent).  An empty key list returns the empty map before group selection and
before any session call. -/
def bulk_read_impl (δ : Type) (cfg : Config) (shuffle : List GroupId → List GroupId)
    (oracle : List GroupId → List Nat → List (Nat × δ))
    (keys : List Nat) (cflags : Nat) (groups : List GroupId) :
    List BulkEvent × Except WriteErr (List (Nat × δ)) :=
  if keys.length = 0 then ([], .ok [])
  else
    match get_groups shuffle cfg.groups groups 0 with
    | .error e => ([], .error e)
    | .ok lgroups =>
      ([.bulkRead lgroups keys], .ok (oracle lgroups keys))

/-- Embedding of `elliptics_proxy_t::impl::bulk_write_impl`
(src/proxy.cpp:909-1000).  `oracle lg ids` is the session's bulk-write reply,
one (id, group) pair per per-group success entry.  Replies are partitioned by
key in id order (`std::map` iteration); when some replied key got fewer than
the required successes, every replied key is removed from the groups that
accepted it and the batch fails. -/
def bulk_write_impl (δ : Type) (cfg : Config) (shuffle : List GroupId → List GroupId)
    (oracle : List GroupId → List Nat → List (Nat × GroupId))
    (keys : List Nat) (data : List δ) (cflags : Nat) (groups : List GroupId)
    (scnArg : Option SuccessMode) :
    List BulkEvent × Except WriteErr (List (Nat × List GroupId)) :=
  if keys.length = 0 then ([], .ok [])
  else
    match get_groups shuffle cfg.groups groups 0 with
    | .error e => ([], .error e)
    | .ok lgroups =>
      if keys.length ≠ data.length then ([], .error .countMismatch)
      else
        let rc := if groups.length = 0 then cfg.replication_count else groups.length
        let reply := oracle lgroups keys
        let presentKeys := (List.insertionSort (· ≤ ·) (reply.map Prod.fst)).dedup
        let res_groups := presentKeys.map
          (fun kid => (kid, reply.filterMap
            (fun e => if e.1 = kid then some e.2 else none)))
        let need := uploads_need (scnArg.getD cfg.success_copies_num) rc
        if res_groups.any (fun kv => kv.2.length < need) then
          (.bulkWrite lgroups keys ::
            res_groups.map (fun kv => BulkEvent.removeKey kv.2 kv.1),
            .error .bulkWriteRejected)
        else
          ([.bulkWrite lgroups keys], .ok res_groups)

/-- C9: bulk_read and bulk_write with an empty key list return the empty map
immediately — no group selection and no session call (empty event trace), so
the call succeeds even when both the explicit and the configured default
group lists are empty, and (for bulk_write) regardless of the data list's
length. -/
theorem bulk_empty_keys_shortcut (δ : Type) (cfg : Config)
    (shuffle : List GroupId → List GroupId)
    (oracleR : List GroupId → List Nat → List (Nat × δ))
    (oracleW : List GroupId → List Nat → List (Nat × GroupId))
    (data : List δ) (cflags : Nat) (groups : List GroupId)
    (scnArg : Option SuccessMode) :
    bulk_read_impl δ cfg shuffle oracleR [] cflags groups = ([], .ok []) ∧
    bulk_write_impl δ cfg shuffle oracleW [] data cflags groups scnArg =
      ([], .ok []) :=
  ⟨rfl, rfl⟩

/-- C10 counterexample: with a non-empty key list, a data list of different
length, empty explicit groups and an empty configured default list, the call
fails with the group-selector's `noGroups` error — not with the "counts of
keys and data are not equal" error the claim names — because the selector
runs before the length check (src/proxy.cpp:923 vs 928). -/
theorem bulk_write_mismatch_nogroups_cex :
    bulk_write_impl Nat ⟨0, 3, .quorum, 0, [], 1⟩ id (fun _ _ => [])
      [1] [] 0 [] none = ([], .error .noGroups) ∧
    WriteErr.noGroups ≠ WriteErr.countMismatch :=
  ⟨rfl, by decide⟩

/-- C10 (amended): a bulk_write with a non-empty key list whose length differs
from the data list's fails before any session write or remove is issued (its
event trace is empty, so nothing is written or removed) — with the
count-mismatch error whenever the group selector succeeds, and with the
selector's own error otherwise. -/
theorem bulk_write_count_mismatch (δ : Type) (cfg : Config)
    (shuffle : List GroupId → List GroupId)
    (oracle : List GroupId → List Nat → List (Nat × GroupId))
    (keys : List Nat) (data : List δ) (cflags : Nat) (groups : List GroupId)
    (scnArg : Option SuccessMode)
    (hk : keys ≠ []) (hlen : keys.length ≠ data.length) :
    (∃ e, bulk_write_impl δ cfg shuffle oracle keys data cflags groups scnArg =
      ([], .error e)) ∧
    (∀ lg, get_groups shuffle cfg.groups groups 0 = .ok lg →
      bulk_write_impl δ cfg shuffle oracle keys data cflags groups scnArg =
        ([], .error .countMismatch)) := by
  have hkl : ¬ (keys.length = 0) := by
    simpa [List.length_eq_zero] using hk
  unfold bulk_write_impl
  rw [if_neg hkl]
  cases hgg : get_groups shuffle cfg.groups groups 0 with
  | error e =>
    refine ⟨⟨e, rfl⟩, ?_⟩
    intro lg hlg
    simp at hlg
  | ok lg0 =>
    simp only
    rw [if_pos hlen]
    exact ⟨⟨.countMismatch, rfl⟩, fun lg _ => rfl⟩

/-- C10 witness: one key, no data, explicit groups [1,2,3] — the call fails
with the count-mismatch error and an empty event trace. -/
theorem bulk_write_count_mismatch_witness :
    bulk_write_impl Nat ⟨0, 3, .quorum, 0, [], 1⟩ id (fun _ _ => [])
      [1] [] 0 [1, 2, 3] none = ([], .error .countMismatch) :=
  (bulk_write_count_mismatch Nat ⟨0, 3, .quorum, 0, [], 1⟩ id (fun _ _ => [])
    [1] [] 0 [1, 2, 3] none (by decide) (by decide)).2
    [1, 2, 3] (get_groups_explicit id [] [1, 2, 3] (by decide))
